import Mathlib

/-!
Shallow embedding of `opensfm/synthetic_data/synthetic_generator.py`.

Python floats are modelled as rationals (`ℚ`), numpy arrays as lists or
fixed structures, and the process-wide numpy random source as an explicit
stream of draws threaded through every call.  External collaborators
(camera projection, pose transforms, the scene-graph and track containers,
geodetic conversion) are modelled through the narrow interfaces the source
uses: a pose is a rotation matrix plus an origin with
`transform p = R (p - origin)`, projection is an abstract per-shot
function, and the containers are association lists.
-/

namespace SyntheticGenerator

/-- A 3-vector of rationals (a row of a numpy array of floats). -/
structure Vec3 where
  x : ℚ
  y : ℚ
  z : ℚ
deriving DecidableEq, Repr

/-- Pointwise difference of 3-vectors (numpy `a - b`). -/
def Vec3.sub (a b : Vec3) : Vec3 := ⟨a.x - b.x, a.y - b.y, a.z - b.z⟩

/-- Dot product of 3-vectors (`np.dot`). -/
def Vec3.dot (a b : Vec3) : ℚ := a.x * b.x + a.y * b.y + a.z * b.z

/-- A 3x3 rotation matrix, stored as its three rows. -/
structure Mat3 where
  r0 : Vec3
  r1 : Vec3
  r2 : Vec3
deriving DecidableEq, Repr

/-- Camera intrinsics (`pygeometry.Camera`): integer sensor dimensions, a
focal ratio and an identity. -/
structure Camera where
  width : ℕ
  height : ℕ
  focal : ℚ
  id : String
deriving DecidableEq, Repr

/-- A world-to-camera pose (`pygeometry.Pose` built from a rotation with
`set_origin`): `transform p = R (p - origin)`, `get_origin () = origin`,
`get_rotation_matrix () = R`. -/
structure Pose where
  rotation : Mat3
  origin : Vec3
deriving DecidableEq, Repr

/-- `pose.transform(p)`: the point in camera coordinates, `R (p - origin)`. -/
def Pose.transform (pose : Pose) (p : Vec3) : Vec3 :=
  ⟨pose.rotation.r0.dot (p.sub pose.origin),
   pose.rotation.r1.dot (p.sub pose.origin),
   pose.rotation.r2.dot (p.sub pose.origin)⟩

/-- An RGB color attached to a 3D point. -/
def Color := ℕ × ℕ × ℕ
deriving DecidableEq, Repr

/-- A 3D point of the scene-graph container (`reconstruction.points`
values): world coordinates plus a color. -/
structure Point where
  coordinates : Vec3
  color : Color
deriving DecidableEq, Repr

/-- A shot of the scene-graph container: its camera model, its pose, and
the external `project_many` projection function restricted to one point
(normalized 2D image coordinates). -/
structure Shot where
  camera : Camera
  pose : Pose
  project : Vec3 → ℚ × ℚ

/-- The scene-graph container (`types.Reconstruction`) as the source uses
it: id-keyed shots and points, plus registered camera models. -/
structure Reconstruction where
  cameras : List Camera
  shots : List (String × Shot)
  points : List (String × Point)

/-! ### The process-wide random source

Numpy's global generator is modelled as two streams of raw draws with a
position counter: `nats` backs `np.random.randint`, `rats` backs
`np.random.random` (through `Int.fract`, so the draw lies in `[0,1)`) and
`np.random.normal` (a draw distributed `N(0,σ)` is `σ` times a standard
draw). -/
structure Rng where
  nats : ℕ → ℕ
  rats : ℕ → ℚ
  k : ℕ

/-- Advance the stream position. -/
def Rng.bump (r : Rng) : Rng := ⟨r.nats, r.rats, r.k + 1⟩

/-- `np.random.randint(lo, hi)`: an integer in `[lo, hi)`. -/
def Rng.randint (r : Rng) (lo hi : ℕ) : ℕ × Rng :=
  (lo + r.nats r.k % (hi - lo), r.bump)

/-- `np.random.random()`: a draw in `[0, 1)`. -/
def Rng.random (r : Rng) : ℚ × Rng :=
  (Int.fract (r.rats r.k), r.bump)

/-- `np.random.normal(0.0, sigma)`: sigma times a standard normal draw. -/
def Rng.normal (r : Rng) (sigma : ℚ) : ℚ × Rng :=
  (sigma * r.rats r.k, r.bump)

/-! ### `perturb_points` -/

/-- The epsilon floor of `perturb_points`. -/
def eps : ℚ := 1/10^10

/-- One coordinate of one point of `perturb_points`: add a Gaussian draw
with standard deviation `max(sigma, eps)`. -/
def perturbCoord (sigma c : ℚ) (rng : Rng) : ℚ × Rng :=
  let (d, rng') := rng.normal (max sigma eps)
  (c + d, rng')

/-- One point of `perturb_points`: per-axis Gaussian noise, axes paired
with their sigmas. -/
def perturbPoint : List ℚ → List ℚ → Rng → List ℚ × Rng
  | _, [], rng => ([], rng)
  | [], _ :: _, rng => ([], rng)
  | s :: sigmas, c :: coords, rng =>
    let (c', rng') := perturbCoord s c rng
    let (rest, rng'') := perturbPoint sigmas coords rng'
    (c' :: rest, rng'')

/-- `perturb_points(points, sigmas)`: in-place Gaussian perturbation of
every point, modelled as returning the new array. -/
def perturb_points : List (List ℚ) → List ℚ → Rng → List (List ℚ) × Rng
  | [], _, rng => ([], rng)
  | p :: ps, sigmas, rng =>
    let (p', rng') := perturbPoint sigmas p rng
    let (rest, rng'') := perturb_points ps sigmas rng'
    (p' :: rest, rng'')

/-! ### Culling predicates -/

/-- `_check_depth(point, shot, maximum_depth)`: the z-coordinate in camera
space is strictly below the maximum depth. -/
def _check_depth (point : Point) (shot : Shot) (maximum_depth : ℚ) : Prop :=
  (shot.pose.transform point.coordinates).z < maximum_depth

instance (point : Point) (shot : Shot) (md : ℚ) :
    Decidable (_check_depth point shot md) := by
  unfold _check_depth; infer_instance

/-- `_is_in_front(point, shot)`: the dot product of (world point - camera
origin) with the third row of the rotation matrix is strictly positive. -/
def _is_in_front (point : Point) (shot : Shot) : Prop :=
  0 < (point.coordinates.sub shot.pose.origin).dot shot.pose.rotation.r2

instance (point : Point) (shot : Shot) : Decidable (_is_in_front point shot) := by
  unfold _is_in_front; infer_instance

/-- `_is_inside_camera(projection, camera)`: the field-of-view test, with
the longer sensor dimension spanning `(-0.5, 0.5)` and the shorter one the
proportionally scaled open interval. -/
def _is_inside_camera (projection : ℚ × ℚ) (camera : Camera) : Prop :=
  if camera.width > camera.height then
    (-(1/2) < projection.1 ∧ projection.1 < 1/2) ∧
      (-((camera.height : ℚ) / (2 * camera.width)) < projection.2 ∧
        projection.2 < (camera.height : ℚ) / (2 * camera.width))
  else
    (-(1/2) < projection.2 ∧ projection.2 < 1/2) ∧
      (-((camera.width : ℚ) / (2 * camera.height)) < projection.1 ∧
        projection.1 < (camera.width : ℚ) / (2 * camera.height))

instance (projection : ℚ × ℚ) (camera : Camera) :
    Decidable (_is_inside_camera projection camera) := by
  unfold _is_inside_camera; infer_instance

/-! ### Descriptor synthesis -/

/-- Numpy's `round`: round half to even, elementwise. -/
def nround (q : ℚ) : ℤ :=
  let f : ℤ := ⌊q⌋
  let r : ℚ := q - f
  if r < 1/2 then f else if 1/2 < r then f + 1 else if Even f then f else f + 1

/-- Descriptor dimensionality of `generate_track_data`. -/
def desc_size : ℕ := 128

/-- Number of randomly assigned descriptor dimensions. -/
def non_zeroes : ℕ := 5

/-- The assignment loop of one descriptor: `non_zeroes` times, draw an
index in `[0, desc_size)` and store a random value scaled to `[0, 255)`
there. -/
def genDescriptorLoop : ℕ → List ℚ → Rng → List ℚ × Rng
  | 0, d, rng => (d, rng)
  | n + 1, d, rng =>
    let (index, rng1) := rng.randint 0 desc_size
    let (v, rng2) := rng1.random
    genDescriptorLoop n (d.set index (v * 255)) rng2

/-- One synthesized descriptor: zeros, five random assignments, then
`round().astype(float32)` (exact on these small integers). -/
def genDescriptor (rng : Rng) : List ℤ × Rng :=
  let (d, rng') := genDescriptorLoop non_zeroes (List.replicate desc_size 0) rng
  (d.map nround, rng')

/-- The `track_descriptors` cache: one descriptor per point identity, in
container order. -/
def genTrackDescriptors : List (String × Point) → Rng → List (String × List ℤ) × Rng
  | [], rng => ([], rng)
  | (key, _) :: rest, rng =>
    let (d, rng') := genDescriptor rng
    let (restD, rng'') := genTrackDescriptors rest rng'
    ((key, d) :: restD, rng'')

/-! ### `generate_track_data` -/

/-- A track-container entry (`pysfm.Observation` as constructed by the
source): perturbed projection, scale, color, and the per-shot feature
index. -/
structure Observation where
  x : ℚ
  y : ℚ
  scale : ℚ
  r : ℕ
  g : ℕ
  b : ℕ
  featureId : ℕ
deriving DecidableEq, Repr

/-- The scale attached to every synthesized feature. -/
def default_scale : ℚ := 4/1000

/-- The aggregated output of `generate_track_data`: per-shot features,
descriptors and colors, plus the shared track container's observation
entries `(shot id, point id, observation)`. -/
structure TrackData where
  features : List (String × List (ℚ × ℚ × ℚ))
  descriptors : List (String × List (List ℤ))
  colors : List (String × List Color)
  tracks : List (String × String × Observation)

/-- The inner loop of `generate_track_data` for one shot: walk all points,
apply the three culling predicates, perturb surviving projections, and
collect the per-shot feature/descriptor/color rows together with the
emitted observations.  `emitted` is `len(projections_inside)` so far. -/
def processPoints (maximum_depth noise : ℚ) (tds : List (String × List ℤ))
    (shot_index : String) (shot : Shot) :
    List (String × Point) → ℕ → Rng →
      (List (ℚ × ℚ × ℚ) × List (List ℤ) × List Color ×
        List (String × String × Observation)) × Rng
  | [], _, rng => (([], [], [], []), rng)
  | (key, point) :: rest, emitted, rng =>
    let projection := shot.project point.coordinates
    if ¬ _is_inside_camera projection shot.camera then
      processPoints maximum_depth noise tds shot_index shot rest emitted rng
    else if ¬ _is_in_front point shot then
      processPoints maximum_depth noise tds shot_index shot rest emitted rng
    else if ¬ _check_depth point shot maximum_depth then
      processPoints maximum_depth noise tds shot_index shot rest emitted rng
    else
      let perturbation := noise / (max shot.camera.width shot.camera.height : ℚ)
      let (parr, rng1) :=
        perturb_points [[projection.1, projection.2]] [perturbation, perturbation] rng
      let p' := parr.headD []
      let px := p'.getD 0 0
      let py := p'.getD 1 0
      let desc := ((tds.lookup key).getD [])
      let obs : Observation :=
        ⟨px, py, default_scale, point.color.1, point.color.2.1, point.color.2.2, emitted⟩
      let (res, rng2) :=
        processPoints maximum_depth noise tds shot_index shot rest (emitted + 1) rng1
      (((px, py, default_scale) :: res.1, desc :: res.2.1,
        point.color :: res.2.2.1, (shot_index, key, obs) :: res.2.2.2), rng2)

/-- The outer loop of `generate_track_data` over all shots. -/
def shotLoop (maximum_depth noise : ℚ) (tds : List (String × List ℤ))
    (pts : List (String × Point)) :
    List (String × Shot) → Rng → TrackData × Rng
  | [], rng => (⟨[], [], [], []⟩, rng)
  | (shot_index, shot) :: rest, rng =>
    let (res, rng1) := processPoints maximum_depth noise tds shot_index shot pts 0 rng
    let (out, rng2) := shotLoop maximum_depth noise tds pts rest rng1
    (⟨(shot_index, res.1) :: out.features,
      (shot_index, res.2.1) :: out.descriptors,
      (shot_index, res.2.2.1) :: out.colors,
      res.2.2.2 ++ out.tracks⟩, rng2)

/-- `generate_track_data(reconstruction, maximum_depth, noise)`: synthesize
per-point descriptors, then project, cull, perturb and emit per shot. -/
def generate_track_data (reconstruction : Reconstruction)
    (maximum_depth noise : ℚ) (rng : Rng) : TrackData × Rng :=
  let (tds, rng0) := genTrackDescriptors reconstruction.points rng
  shotLoop maximum_depth noise tds reconstruction.points reconstruction.shots rng0

/-- The descriptor attached to an emitted observation: the row of the
shot's descriptor array selected by the observation's feature index. -/
def obsDescriptor (td : TrackData) (shot_index : String) (o : Observation) :
    Option (List ℤ) :=
  (td.descriptors.lookup shot_index).bind (fun l => l.get? o.featureId)

/-! ### The field-of-view test with Python's evaluation order

Python evaluates `a and b` lazily and raises `ZeroDivisionError` on a
float division by zero; `none` marks that error, `some b` a completed
evaluation. -/

/-- `_is_inside_camera` with division by zero made observable, following
the source's conjunct and operand order exactly. -/
def _is_inside_camera_checked (projection : ℚ × ℚ) (camera : Camera) :
    Option Bool :=
  if camera.width > camera.height then
    if ¬ (-(1/2) < projection.1 ∧ projection.1 < 1/2) then some false
    else if (2 * camera.width : ℚ) = 0 then none
    else some (decide
      (-((camera.height : ℚ) / (2 * camera.width)) < projection.2 ∧
        projection.2 < (camera.height : ℚ) / (2 * camera.width)))
  else
    if ¬ (-(1/2) < projection.2 ∧ projection.2 < 1/2) then some false
    else if (2 * camera.height : ℚ) = 0 then none
    else some (decide
      (-((camera.width : ℚ) / (2 * camera.height)) < projection.1 ∧
        projection.1 < (camera.width : ℚ) / (2 * camera.height)))

/-! ### `add_shots_to_reconstruction` and `add_points_to_reconstruction` -/

/-- `add_shots_to_reconstruction`: register the camera, then create one
shot per `zip`-paired (id, position, rotation) triple, with pose built
from the rotation and origin.  `projOf` is the external camera model's
projection for a shot with the given intrinsics and pose. -/
def add_shots_to_reconstruction (shot_ids : List String) (positions : List Vec3)
    (rotations : List Mat3) (camera : Camera)
    (projOf : Camera → Pose → Vec3 → ℚ × ℚ)
    (reconstruction : Reconstruction) : Reconstruction :=
  { reconstruction with
    cameras := reconstruction.cameras ++ [camera]
    shots := reconstruction.shots ++
      (shot_ids.zip (positions.zip rotations)).map
        (fun t => (t.1, ⟨camera, ⟨t.2.2, t.2.1⟩, projOf camera ⟨t.2.2, t.2.1⟩⟩)) }

/-- Python's `str` on a natural number: the decimal digit string. -/
def strNat (n : ℕ) : String :=
  if n = 0 then "0" else ((Nat.digits 10 n).reverse.map Nat.digitChar).asString

/-- `add_points_to_reconstruction`: create one point per coordinate row,
with identities `str(shift + i)` continuing from the container's current
point count `shift`, all sharing one color. -/
def add_points_to_reconstruction (points : List Vec3) (color : Color)
    (reconstruction : Reconstruction) : Reconstruction :=
  let shift := reconstruction.points.length
  { reconstruction with
    points := reconstruction.points ++
      points.enum.map (fun t => (strNat (shift + t.1), ⟨t.2, color⟩)) }

/-! ### `generate_exifs` -/

/-- Lexicographic comparison of strings by code point, Python's `<` on
`str` as used by `sorted`. -/
def strLtAux : List Char → List Char → Bool
  | [], [] => false
  | [], _ :: _ => true
  | _ :: _, [] => false
  | a :: as, b :: bs =>
    if a.val < b.val then true else if b.val < a.val then false else strLtAux as bs

/-- String comparison on the underlying character lists. -/
def strLtB (a b : String) : Bool := strLtAux a.data b.data

/-- Insert into a key-sorted association list. -/
def insertByKey (x : String × α) : List (String × α) → List (String × α)
  | [] => [x]
  | y :: ys => if strLtB x.1 y.1 then x :: y :: ys else y :: insertByKey x ys

/-- `sorted(d.keys())` traversal: the association list in ascending key
order. -/
def sortByKey : List (String × α) → List (String × α)
  | [] => []
  | x :: xs => insertByKey x (sortByKey xs)

/-- The nominal speed constant of `generate_exifs`. -/
def speed_ms : ℝ := 10

/-- Euclidean distance of two positions, `np.linalg.norm(pose - previous_pose)`. -/
noncomputable def dist3 (a b : Vec3) : ℝ :=
  Real.sqrt (((a.x - b.x : ℚ) : ℝ)^2 + ((a.y - b.y : ℚ) : ℝ)^2 + ((a.z - b.z : ℚ) : ℝ)^2)

/-- One simulated exif record. -/
structure Exif where
  width : ℕ
  height : ℕ
  focal_ratio : ℚ
  camera : String
  make : String
  capture_time : ℝ
  gps_latitude : ℚ
  gps_longitude : ℚ
  gps_altitude : ℚ
  gps_dop : ℚ
  compass : ℚ

/-- The loop of `generate_exifs` over key-sorted shots, accumulating the
previous origin and capture time; the GPS perturbation happens after the
capture time is recorded and does not feed back into it. -/
noncomputable def exifLoop (to_lla : ℚ → ℚ → ℚ → ℚ × ℚ × ℚ) (compassOf : Shot → ℚ)
    (gps_noise : ℚ) :
    List (String × Shot) → Option Vec3 → ℝ → Rng → List (String × Exif) × Rng
  | [], _, _, rng => ([], rng)
  | (shot_name, shot) :: rest, previous_pose, previous_time, rng =>
    let pose := shot.pose.origin
    let t : ℝ :=
      match previous_pose with
      | none => previous_time
      | some pp => previous_time + dist3 pose pp * speed_ms
    let (parr, rng1) :=
      perturb_points [[pose.x, pose.y, pose.z]] [gps_noise, gps_noise, gps_noise] rng
    let p' := parr.headD []
    let lla := to_lla (p'.getD 0 0) (p'.getD 1 0) (p'.getD 2 0)
    let exif : Exif :=
      ⟨shot.camera.width, shot.camera.height, shot.camera.focal,
        shot.camera.id, shot.camera.id, t,
        lla.1, lla.2.1, lla.2.2, gps_noise, compassOf shot⟩
    let (restE, rng2) := exifLoop to_lla compassOf gps_noise rest (some pose) t rng1
    ((shot_name, exif) :: restE, rng2)

/-- `generate_exifs(reconstruction, gps_noise)`: fake exif metadata per
shot, traversed in ascending sort order of the shot identity keys,
starting with capture time 0.  `to_lla` is the external topocentric
converter anchored at the world origin and `compassOf` the external
compass derivation. -/
noncomputable def generate_exifs (to_lla : ℚ → ℚ → ℚ → ℚ × ℚ × ℚ)
    (compassOf : Shot → ℚ) (reconstruction : Reconstruction) (gps_noise : ℚ)
    (rng : Rng) : List (String × Exif) × Rng :=
  exifLoop to_lla compassOf gps_noise (sortByKey reconstruction.shots) none 0 rng

/-! ### Concrete test fixtures -/

/-- The random source whose raw draws are all zero. -/
def rngZero : Rng := ⟨fun _ => 0, fun _ => 0, 0⟩

/-- A random source with constant one-half raw draws. -/
def rngHalf : Rng := ⟨fun _ => 0, fun _ => 1/2, 0⟩

/-- A square 2x2 test camera. -/
def camEx : Camera := ⟨2, 2, 1, "cam"⟩

/-- The identity pose at the world origin. -/
def poseId : Pose := ⟨⟨⟨1, 0, 0⟩, ⟨0, 1, 0⟩, ⟨0, 0, 1⟩⟩, ⟨0, 0, 0⟩⟩

/-- A shot at the origin looking along +z, projecting everything to the
image center. -/
def shotEx : Shot := ⟨camEx, poseId, fun _ => (0, 0)⟩

/-- A black point one unit in front of `shotEx`. -/
def ptEx : Point := ⟨⟨0, 0, 1⟩, (0, 0, 0)⟩

/-- Two shots, one visible point. -/
def recEx2 : Reconstruction :=
  ⟨[camEx], [("s", shotEx), ("t", shotEx)], [("0", ptEx)]⟩

/-- Two shots with out-of-order identity keys for the exif fixture. -/
def recExifs : Reconstruction := ⟨[camEx], [("b", shotEx), ("a", shotEx)], []⟩

/-- The observation emitted for `ptEx` by `shotEx` under zero draws. -/
def obsEx : Observation := ⟨0, 0, default_scale, 0, 0, 0, 0⟩

/-- An identity stand-in for the external topocentric conversion. -/
def llaId : ℚ → ℚ → ℚ → ℚ × ℚ × ℚ := fun x y z => (x, y, z)

/-- An empty scene-graph container. -/
def emptyRecEx : Reconstruction := ⟨[], [], []⟩

/-- A trivial stand-in for the external camera projection model. -/
def projZero : Camera → Pose → Vec3 → ℚ × ℚ := fun _ _ _ => (0, 0)

/-- The point identities one call to `add_points_to_reconstruction` would
create on the given container state. -/
def createdIds (points : List Vec3) (reconstruction : Reconstruction) : List String :=
  (List.range points.length).map (fun i => strNat (reconstruction.points.length + i))

/-- The exif record produced for `shotEx` at time 0 with zero noise. -/
def exifEx : Exif := ⟨2, 2, 1, "cam", "cam", 0, 0, 0, 0, 0, 0⟩

end SyntheticGenerator

namespace SyntheticGenerator

/-! ## Helper lemmas -/

lemma natCast_two_mul_eq_zero {n : ℕ} (h : (2 * (n : ℚ)) = 0) : n = 0 := by
  have : (n : ℚ) = 0 := by linarith
  exact_mod_cast this

/-! ## C6: division by zero in the field-of-view test -/

/-- C6 (counterexample): a camera with width 0 and height 10 does not
cause a division by zero in the field-of-view test; the test completes
and returns `false`. -/
theorem is_inside_camera_checked_zero_width_no_divzero :
    _is_inside_camera_checked (0, 0) ⟨0, 10, 1, "c"⟩ = some false := by
  norm_num [_is_inside_camera_checked]

/-- C6 (amended): evaluating the field-of-view test divides by zero iff
both sensor dimensions are zero and the first-tested coordinate lies in
`(-0.5, 0.5)` (otherwise Python's lazy `and` skips the division); a camera
with exactly one zero dimension never divides by zero. -/
theorem is_inside_camera_checked_none_iff (p : ℚ × ℚ) (c : Camera) :
    _is_inside_camera_checked p c = none ↔
      c.width = 0 ∧ c.height = 0 ∧ (-(1/2) < p.2 ∧ p.2 < 1/2) := by
  unfold _is_inside_camera_checked
  by_cases h1 : c.width > c.height
  · rw [if_pos h1]
    have hw : c.width ≠ 0 := by omega
    split_ifs with h2 h3
    · exact absurd (natCast_two_mul_eq_zero h3) hw
    · simp only [false_iff]
      rintro ⟨hw0, -, -⟩
      exact hw hw0
    · simp only [false_iff]
      rintro ⟨hw0, -, -⟩
      exact hw hw0
  · rw [if_neg h1]
    split_ifs with h2 h3
    · have hh : c.height = 0 := natCast_two_mul_eq_zero h3
      have hw : c.width = 0 := by omega
      simp only [true_iff]
      exact ⟨hw, hh, h2⟩
    · simp only [false_iff]
      rintro ⟨-, hh, -⟩
      have : (2 * (c.height : ℚ)) = 0 := by rw [hh]; norm_num
      exact h3 this
    · simp only [false_iff]
      rintro ⟨-, -, hp⟩
      exact h2 hp

/-! ## C7: `perturb_points` with zero sigmas -/

lemma eps_pos : (0 : ℚ) < eps := by norm_num [eps]

lemma max_zero_eps : max (0 : ℚ) eps = eps := max_eq_right eps_pos.le

lemma perturbCoord_rats (sigma c : ℚ) (rng : Rng) :
    (perturbCoord sigma c rng).2.rats = rng.rats := rfl

lemma perturbPoint_rats (sigmas coords : List ℚ) (rng : Rng) :
    (perturbPoint sigmas coords rng).2.rats = rng.rats := by
  induction sigmas generalizing coords rng with
  | nil => cases coords <;> rfl
  | cons s ss ih =>
    cases coords with
    | nil => rfl
    | cons c cs => simpa [perturbPoint, perturbCoord, Rng.normal, Rng.bump] using ih cs _

/-- One coordinate of `perturbPoint` under all-zero sigmas: a nonzero
sub-`1e-9` change, provided the backing draws are nonzero and below 10 in
magnitude. -/
lemma perturbPoint_coord_sigma_zero (sigmas coords : List ℚ) (rng : Rng)
    (hs : ∀ s ∈ sigmas, s = 0)
    (hz : ∀ n, rng.rats n ≠ 0) (hb : ∀ n, |rng.rats n| < 10) :
    ∀ i c c', coords.get? i = some c →
      (perturbPoint sigmas coords rng).1.get? i = some c' →
      c' ≠ c ∧ |c' - c| < 1/10^9 := by
  induction sigmas generalizing coords rng with
  | nil =>
    intro i c c' _ h'
    cases coords <;> simp [perturbPoint] at h'
  | cons s ss ih =>
    intro i c c' hc h'
    cases coords with
    | nil => simp [perturbPoint] at h'
    | cons c0 cs =>
      have hs0 : s = 0 := hs s (by simp)
      cases i with
      | zero =>
        have hc0 : c = c0 := by simpa using hc.symm
        have hval : c' = c0 + eps * rng.rats rng.k := by
          have := h'
          simp only [perturbPoint, perturbCoord, Rng.normal, hs0, max_zero_eps,
            List.get?, Option.some.injEq] at this
          exact this.symm
        subst hc0 hval
        constructor
        · have hne : eps * rng.rats rng.k ≠ 0 :=
            mul_ne_zero (ne_of_gt eps_pos) (hz rng.k)
          intro hcontra
          exact hne (by linarith [sub_eq_zero_of_eq hcontra])
        · have habs : |c + eps * rng.rats rng.k - c| = eps * |rng.rats rng.k| := by
            rw [add_sub_cancel_left, abs_mul, abs_of_pos eps_pos]
          rw [habs]
          calc eps * |rng.rats rng.k| < eps * 10 := by
                exact mul_lt_mul_of_pos_left (hb rng.k) eps_pos
            _ = 1/10^9 := by norm_num [eps]
      | succ j =>
        have hc' : cs.get? j = some c := by simpa using hc
        have h'' : (perturbPoint ss cs rng.bump).1.get? j = some c' := by
          have := h'
          simp only [perturbPoint, perturbCoord, Rng.normal, List.get?] at this
          exact this
        exact ih cs rng.bump (fun t ht => hs t (by simp [ht]))
          (fun n => hz n) (fun n => hb n) j c c' hc' h''

/-- C7 (counterexample): when the standard draw is zero, `perturb_points`
with sigma 0 leaves the coordinate exactly unchanged, contradicting "the
change is not exactly zero". -/
theorem perturb_points_sigma_zero_counterexample :
    (perturb_points [[0]] [0] rngZero).1 = [[0]] := by
  simp only [perturb_points, perturbPoint, perturbCoord, Rng.normal, rngZero,
    max_zero_eps]
  norm_num

/-- C7 (amended): with all sigmas 0 the effective per-axis standard
deviation is the floor ε = 10⁻¹⁰, so each coordinate moves by ε times its
standard-normal draw: whenever every draw is nonzero with magnitude below
10, every coordinate changes by a nonzero amount strictly smaller than
10⁻⁹. -/
theorem perturb_points_sigma_zero_changes (points : List (List ℚ))
    (sigmas : List ℚ) (rng : Rng) (hs : ∀ s ∈ sigmas, s = 0)
    (hz : ∀ n, rng.rats n ≠ 0) (hb : ∀ n, |rng.rats n| < 10) :
    ∀ j p p', points.get? j = some p →
      (perturb_points points sigmas rng).1.get? j = some p' →
      ∀ i c c', p.get? i = some c → p'.get? i = some c' →
        c' ≠ c ∧ |c' - c| < 1/10^9 := by
  induction points generalizing rng with
  | nil => intro j p p' hp; simp at hp
  | cons p0 ps ih =>
    intro j p p' hp hp'
    cases j with
    | zero =>
      have hp0 : p = p0 := by simpa using hp.symm
      have hp'0 : p' = (perturbPoint sigmas p0 rng).1 := by
        have := hp'
        simp only [perturb_points, List.get?, Option.some.injEq] at this
        exact this.symm
      subst hp0 hp'0
      exact perturbPoint_coord_sigma_zero sigmas p rng hs hz hb
    | succ j' =>
      have hp1 : ps.get? j' = some p := by simpa using hp
      have hp'1 :
          (perturb_points ps sigmas (perturbPoint sigmas p0 rng).2).1.get? j'
            = some p' := by
        have := hp'
        simp only [perturb_points, List.get?] at this
        exact this
      exact ih (perturbPoint sigmas p0 rng).2
        (fun n => by rw [perturbPoint_rats]; exact hz n)
        (fun n => by rw [perturbPoint_rats]; exact hb n) j' p p' hp1 hp'1

/-- C7 (witness): the amended statement at a concrete input. -/
theorem perturb_points_sigma_zero_changes_witness :
    (1 + eps * (1/2) : ℚ) ≠ 1 ∧ |(1 + eps * (1/2) : ℚ) - 1| < 1/10^9 :=
  perturb_points_sigma_zero_changes [[1]] [0] rngHalf
    (by intro s hs; simpa using hs)
    (by intro n; norm_num [rngHalf])
    (by intro n; rw [abs_of_pos] <;> norm_num [rngHalf])
    0 [1] [1 + eps * (1/2)] rfl
    (by simp only [perturb_points, perturbPoint, perturbCoord, Rng.normal,
          rngHalf, max_zero_eps, List.get?])
    0 1 (1 + eps * (1/2)) rfl rfl

/-! ## C8: silent truncation in `add_shots_to_reconstruction` -/

/-- C8: with mismatched input lengths, `add_shots_to_reconstruction`
creates exactly `min` of the three lengths many shots, with no error. -/
theorem add_shots_to_reconstruction_truncates (shot_ids : List String)
    (positions : List Vec3) (rotations : List Mat3) (camera : Camera)
    (projOf : Camera → Pose → Vec3 → ℚ × ℚ) (reconstruction : Reconstruction)
    (h : ¬ (shot_ids.length = positions.length ∧
            positions.length = rotations.length)) :
    ((add_shots_to_reconstruction shot_ids positions rotations camera projOf
        reconstruction).shots).length
      = reconstruction.shots.length
          + min shot_ids.length (min positions.length rotations.length) := by
  simp [add_shots_to_reconstruction]

/-- C8 (witness): two ids, one position, three rotations create one shot. -/
theorem add_shots_to_reconstruction_truncates_witness :
    ((add_shots_to_reconstruction ["a", "b"] [⟨0, 0, 0⟩]
        [poseId.rotation, poseId.rotation, poseId.rotation] camEx projZero
        emptyRecEx).shots).length = 0 + min 2 (min 1 3) := by
  have h := add_shots_to_reconstruction_truncates ["a", "b"] [⟨0, 0, 0⟩]
    [poseId.rotation, poseId.rotation, poseId.rotation] camEx projZero
    emptyRecEx (by norm_num)
  simpa [emptyRecEx] using h

/-! ## C9: sequential point identities in `add_points_to_reconstruction` -/

lemma digitChar_eq_zero_char {d : ℕ} (hd : d < 10) (h : Nat.digitChar d = '0') :
    d = 0 := by
  revert h
  revert hd
  revert d
  decide

lemma digitChar_inj_below_ten :
    ∀ a < 10, ∀ b < 10, Nat.digitChar a = Nat.digitChar b → a = b := by decide

lemma map_digitChar_inj : ∀ l1 l2 : List ℕ, (∀ x ∈ l1, x < 10) →
    (∀ x ∈ l2, x < 10) → l1.map Nat.digitChar = l2.map Nat.digitChar →
    l1 = l2 := by
  intro l1
  induction l1 with
  | nil =>
    intro l2 _ _ h
    cases l2 with
    | nil => rfl
    | cons b bs => simp at h
  | cons a as ih =>
    intro l2 h1 h2 h
    cases l2 with
    | nil => simp at h
    | cons b bs =>
      simp only [List.map_cons, List.cons.injEq] at h
      have hab : a = b :=
        digitChar_inj_below_ten a (h1 a (by simp)) b (h2 b (by simp)) h.1
      have hrest : as = bs :=
        ih bs (fun x hx => h1 x (by simp [hx])) (fun x hx => h2 x (by simp [hx])) h.2
      rw [hab, hrest]

lemma asString_injective (l1 l2 : List Char) (h : l1.asString = l2.asString) :
    l1 = l2 := congrArg String.data h

/-- Python's decimal `str` is injective on natural numbers. -/
lemma strNat_injective : Function.Injective strNat := by
  intro m n h
  unfold strNat at h
  by_cases hm : m = 0 <;> by_cases hn : n = 0
  · rw [hm, hn]
  · exfalso
    rw [if_pos hm, if_neg hn] at h
    have hd : ['0'] = (Nat.digits 10 n).reverse.map Nat.digitChar :=
      asString_injective _ _ h
    rcases hrev : (Nat.digits 10 n).reverse with _ | ⟨d, ds⟩
    · rw [hrev] at hd; simp at hd
    · rw [hrev] at hd
      simp only [List.map_cons, List.cons.injEq] at hd
      have hds : ds = [] := by
        have := hd.2
        exact List.map_eq_nil_iff.mp this.symm
      have hdig : Nat.digits 10 n = [d] := by
        have : (Nat.digits 10 n).reverse = [d] := by rw [hrev, hds]
        have h2 := congrArg List.reverse this
        simpa using h2
      have hlast : d ≠ 0 := by
        have := Nat.getLast_digit_ne_zero 10 hn
        rw [List.getLast_congr _ (List.cons_ne_nil d []) hdig] at this
        simpa using this
      have hlt : d < 10 :=
        Nat.digits_lt_base (by norm_num) (by rw [hdig]; simp)
      exact hlast (digitChar_eq_zero_char hlt hd.1.symm)
  · exfalso
    rw [if_neg hm, if_pos hn] at h
    have hd : (Nat.digits 10 m).reverse.map Nat.digitChar = ['0'] :=
      asString_injective _ _ h
    rcases hrev : (Nat.digits 10 m).reverse with _ | ⟨d, ds⟩
    · rw [hrev] at hd; simp at hd
    · rw [hrev] at hd
      simp only [List.map_cons, List.cons.injEq] at hd
      have hds : ds = [] := List.map_eq_nil_iff.mp hd.2
      have hdig : Nat.digits 10 m = [d] := by
        have : (Nat.digits 10 m).reverse = [d] := by rw [hrev, hds]
        have h2 := congrArg List.reverse this
        simpa using h2
      have hlast : d ≠ 0 := by
        have := Nat.getLast_digit_ne_zero 10 hm
        rw [List.getLast_congr _ (List.cons_ne_nil d []) hdig] at this
        simpa using this
      have hlt : d < 10 :=
        Nat.digits_lt_base (by norm_num) (by rw [hdig]; simp)
      exact hlast (digitChar_eq_zero_char hlt hd.1)
  · rw [if_neg hm, if_neg hn] at h
    have hd := asString_injective _ _ h
    have hrev :
        (Nat.digits 10 m).reverse = (Nat.digits 10 n).reverse :=
      map_digitChar_inj _ _
        (fun x hx => Nat.digits_lt_base (by norm_num) (List.mem_reverse.mp hx))
        (fun x hx => Nat.digits_lt_base (by norm_num) (List.mem_reverse.mp hx)) hd
    have hdig : Nat.digits 10 m = Nat.digits 10 n :=
      List.reverse_injective hrev
    calc m = Nat.ofDigits 10 (Nat.digits 10 m) := (Nat.ofDigits_digits 10 m).symm
      _ = Nat.ofDigits 10 (Nat.digits 10 n) := by rw [hdig]
      _ = n := Nat.ofDigits_digits 10 n

/-- C9: one call to `add_points_to_reconstruction` appends points with
identities `str(c), ..., str(c+n-1)` continuing from the current point
count `c`, and the identity sets created by successive calls (where the
container's point count has grown by at least the first call's batch) are
disjoint. -/
theorem add_points_to_reconstruction_ids (points : List Vec3) (color : Color)
    (reconstruction : Reconstruction) :
    ((add_points_to_reconstruction points color reconstruction).points.map Prod.fst
        = reconstruction.points.map Prod.fst ++ createdIds points reconstruction) ∧
    ((add_points_to_reconstruction points color reconstruction).points.length
        = reconstruction.points.length + points.length) ∧
    (∀ (points' : List Vec3) (rec' : Reconstruction),
      reconstruction.points.length + points.length ≤ rec'.points.length →
      ∀ s ∈ createdIds points reconstruction, s ∉ createdIds points' rec') := by
  refine ⟨?_, ?_, ?_⟩
  · simp only [add_points_to_reconstruction, createdIds, List.map_append]
    congr 1
    rw [List.map_map, ← List.enum_map_fst points, List.map_map]
    rfl
  · simp [add_points_to_reconstruction]
  · intro points' rec' hlen s hs hs'
    simp only [createdIds, List.mem_map, List.mem_range] at hs hs'
    obtain ⟨i, hi, hsi⟩ := hs
    obtain ⟨j, hj, hsj⟩ := hs'
    have : reconstruction.points.length + i = rec'.points.length + j :=
      strNat_injective (hsi.symm ▸ hsj.symm ▸ rfl : strNat _ = strNat _)
    omega

/-- C9 (witness): two points then one point on an empty container give
ids ["0", "1"] then ["2"]; "0" is not among the second batch. -/
theorem add_points_to_reconstruction_ids_witness :
    "0" ∉ createdIds [⟨0, 0, 0⟩]
      (add_points_to_reconstruction [⟨0, 0, 0⟩, ⟨1, 1, 1⟩] (0, 0, 0) emptyRecEx) :=
  (add_points_to_reconstruction_ids [⟨0, 0, 0⟩, ⟨1, 1, 1⟩] (0, 0, 0)
      emptyRecEx).2.2 [⟨0, 0, 0⟩]
    (add_points_to_reconstruction [⟨0, 0, 0⟩, ⟨1, 1, 1⟩] (0, 0, 0) emptyRecEx)
    (by simp [add_points_to_reconstruction, emptyRecEx]) "0"
    (by simp [createdIds, emptyRecEx]
        exact ⟨0, by norm_num, by simp [strNat]⟩)

/-! ## C5: capture times in `generate_exifs` -/

lemma dist3_nonneg (a b : Vec3) : 0 ≤ dist3 a b := Real.sqrt_nonneg _

/-- The capture times produced by the exif loop: the first record carries
the running time (plus a travel increment when a previous origin exists),
and each later record adds the distance to the previous origin times the
speed constant. -/
lemma exifLoop_capture_times (to_lla : ℚ → ℚ → ℚ → ℚ × ℚ × ℚ)
    (compassOf : Shot → ℚ) (gps_noise : ℚ) (shots : List (String × Shot))
    (prevPose : Option Vec3) (prevTime : ℝ) (rng : Rng) :
    ((exifLoop to_lla compassOf gps_noise shots prevPose prevTime rng).1.length
        = shots.length) ∧
    (∀ e sh,
      (exifLoop to_lla compassOf gps_noise shots prevPose prevTime rng).1.get? 0
          = some e →
      shots.get? 0 = some sh →
      e.2.capture_time =
        match prevPose with
        | none => prevTime
        | some pp => prevTime + dist3 sh.2.pose.origin pp * speed_ms) ∧
    (∀ i e e' sh sh',
      (exifLoop to_lla compassOf gps_noise shots prevPose prevTime rng).1.get? i
          = some e →
      (exifLoop to_lla compassOf gps_noise shots prevPose prevTime rng).1.get?
          (i + 1) = some e' →
      shots.get? i = some sh → shots.get? (i + 1) = some sh' →
      e'.2.capture_time
        = e.2.capture_time + dist3 sh'.2.pose.origin sh.2.pose.origin * speed_ms) := by
  induction shots generalizing prevPose prevTime rng with
  | nil =>
    refine ⟨rfl, ?_, ?_⟩
    · intro e sh _ hsh; simp at hsh
    · intro i e e' sh sh' _ _ hsh; simp at hsh
  | cons hd rest ih =>
    obtain ⟨name, shot⟩ := hd
    cases prevPose with
    | none =>
      refine ⟨?_, ?_, ?_⟩
      · simp only [exifLoop, List.length_cons, Nat.add_right_cancel_iff]
        exact (ih _ _ _).1
      · intro e sh he hsh
        simp only [exifLoop, List.get?_cons_zero, Option.some.injEq] at he hsh
        rw [← he, ← hsh]
      · intro i e e' sh sh' he he' hsh hsh'
        cases i with
        | zero =>
          simp only [exifLoop, List.get?_cons_zero, List.get?_cons_succ,
            Option.some.injEq] at he he' hsh hsh'
          have hstep := (ih (some shot.pose.origin) prevTime _).2.1 e' sh' he' hsh'
          rw [← he, ← hsh]
          simpa using hstep
        | succ j =>
          simp only [exifLoop, List.get?_cons_succ] at he he' hsh hsh'
          exact (ih (some shot.pose.origin) prevTime _).2.2 j e e' sh sh'
            he he' hsh hsh'
    | some pp =>
      refine ⟨?_, ?_, ?_⟩
      · simp only [exifLoop, List.length_cons, Nat.add_right_cancel_iff]
        exact (ih _ _ _).1
      · intro e sh he hsh
        simp only [exifLoop, List.get?_cons_zero, Option.some.injEq] at he hsh
        rw [← he, ← hsh]
      · intro i e e' sh sh' he he' hsh hsh'
        cases i with
        | zero =>
          simp only [exifLoop, List.get?_cons_zero, List.get?_cons_succ,
            Option.some.injEq] at he he' hsh hsh'
          have hstep := (ih (some shot.pose.origin)
            (prevTime + dist3 shot.pose.origin pp * speed_ms) _).2.1 e' sh' he' hsh'
          rw [← he, ← hsh]
          simpa using hstep
        | succ j =>
          simp only [exifLoop, List.get?_cons_succ] at he he' hsh hsh'
          exact (ih (some shot.pose.origin)
            (prevTime + dist3 shot.pose.origin pp * speed_ms) _).2.2 j e e' sh sh'
            he he' hsh hsh'

/-- C5: capture times in `generate_exifs` start at 0 on the first shot in
ascending key order, advance by the Euclidean distance between consecutive
camera origins times the speed constant 10, and are therefore
non-decreasing along the traversal, for every reconstruction and noise
level. -/
theorem generate_exifs_capture_times (to_lla : ℚ → ℚ → ℚ → ℚ × ℚ × ℚ)
    (compassOf : Shot → ℚ) (reconstruction : Reconstruction) (gps_noise : ℚ)
    (rng : Rng) :
    ((generate_exifs to_lla compassOf reconstruction gps_noise rng).1.length
        = (sortByKey reconstruction.shots).length) ∧
    (∀ e,
      (generate_exifs to_lla compassOf reconstruction gps_noise rng).1.get? 0
          = some e →
      e.2.capture_time = 0) ∧
    (∀ i e e' sh sh',
      (generate_exifs to_lla compassOf reconstruction gps_noise rng).1.get? i
          = some e →
      (generate_exifs to_lla compassOf reconstruction gps_noise rng).1.get?
          (i + 1) = some e' →
      (sortByKey reconstruction.shots).get? i = some sh →
      (sortByKey reconstruction.shots).get? (i + 1) = some sh' →
      e'.2.capture_time
        = e.2.capture_time + dist3 sh'.2.pose.origin sh.2.pose.origin * speed_ms) ∧
    (∀ i e e',
      (generate_exifs to_lla compassOf reconstruction gps_noise rng).1.get? i
          = some e →
      (generate_exifs to_lla compassOf reconstruction gps_noise rng).1.get?
          (i + 1) = some e' →
      e.2.capture_time ≤ e'.2.capture_time) := by
  have hbase := exifLoop_capture_times to_lla compassOf gps_noise
    (sortByKey reconstruction.shots) none 0 rng
  refine ⟨hbase.1, ?_, ?_, ?_⟩
  · intro e he
    have hlen : 0 < (sortByKey reconstruction.shots).length := by
      rw [← hbase.1]
      exact (List.get?_eq_some.mp he).1
    have hsh : (sortByKey reconstruction.shots).get? 0
        = some ((sortByKey reconstruction.shots).get ⟨0, hlen⟩) :=
      List.get?_eq_get hlen
    exact hbase.2.1 e _ (by simpa [generate_exifs] using he) hsh
  · intro i e e' sh sh' he he' hsh hsh'
    exact hbase.2.2 i e e' sh sh' (by simpa [generate_exifs] using he)
      (by simpa [generate_exifs] using he') hsh hsh'
  · intro i e e' he he'
    have hlt : i + 1 < (sortByKey reconstruction.shots).length := by
      rw [← hbase.1]
      exact List.get?_eq_some.mp he' |>.1
    have hsh : ∃ sh, (sortByKey reconstruction.shots).get? i = some sh :=
      ⟨_, List.get?_eq_get (by omega)⟩
    have hsh' : ∃ sh, (sortByKey reconstruction.shots).get? (i + 1) = some sh :=
      ⟨_, List.get?_eq_get hlt⟩
    obtain ⟨sh, hsh⟩ := hsh
    obtain ⟨sh', hsh'⟩ := hsh'
    have hstep := hbase.2.2 i e e' sh sh' (by simpa [generate_exifs] using he)
      (by simpa [generate_exifs] using he') hsh hsh'
    rw [hstep]
    have : 0 ≤ dist3 sh'.2.pose.origin sh.2.pose.origin * speed_ms :=
      mul_nonneg (dist3_nonneg _ _) (by norm_num [speed_ms])
    linarith

/-- C5 (witness): on a two-shot fixture with keys out of order, the first
shot in sorted key order ("a") receives capture time 0. -/
theorem generate_exifs_capture_times_witness :
    ((generate_exifs llaId (fun _ => 0) recExifs 0 rngZero).1.get? 0
        = some ("a", exifEx)) ∧ exifEx.capture_time = 0 := by
  have hba : strLtB "b" "a" = false := by decide
  have heval : (generate_exifs llaId (fun _ => 0) recExifs 0 rngZero).1.get? 0
      = some ("a", exifEx) := by
    norm_num [generate_exifs, exifLoop, sortByKey, insertByKey, hba, recExifs,
      shotEx, camEx, poseId, exifEx, llaId, perturb_points, perturbPoint,
      perturbCoord, Rng.normal, Rng.bump, rngZero, max_zero_eps]
  refine ⟨heval, ?_⟩
  have hzero := (generate_exifs_capture_times llaId (fun _ => 0) recExifs 0
    rngZero).2.1 ("a", exifEx) heval
  simpa using hzero

/-! ## The `generate_track_data` loop invariants -/

/-- The four per-shot output lists of the inner loop stay index-aligned:
equal lengths throughout. -/
lemma processPoints_lengths (maximum_depth noise : ℚ)
    (tds : List (String × List ℤ)) (sid : String) (shot : Shot) :
    ∀ (pts : List (String × Point)) (e : ℕ) (rng : Rng),
      ((processPoints maximum_depth noise tds sid shot pts e rng).1.1.length
        = (processPoints maximum_depth noise tds sid shot pts e rng).1.2.1.length) ∧
      ((processPoints maximum_depth noise tds sid shot pts e rng).1.2.1.length
        = (processPoints maximum_depth noise tds sid shot pts e rng).1.2.2.1.length) ∧
      ((processPoints maximum_depth noise tds sid shot pts e rng).1.2.2.1.length
        = (processPoints maximum_depth noise tds sid shot pts e rng).1.2.2.2.length) := by
  intro pts
  induction pts with
  | nil => intro e rng; simp [processPoints]
  | cons kp rest ih =>
    obtain ⟨k0, pt0⟩ := kp
    intro e rng
    by_cases h1 : _is_inside_camera (shot.project pt0.coordinates) shot.camera
    · by_cases h2 : _is_in_front pt0 shot
      · by_cases h3 : _check_depth pt0 shot maximum_depth
        · simpa [processPoints, h1, h2, h3] using ih (e + 1) _
        · simpa [processPoints, h1, h2, h3] using ih e rng
      · simpa [processPoints, h1, h2] using ih e rng
    · simpa [processPoints, h1] using ih e rng

/-- Every observation emitted by the inner loop carries the loop's shot
index. -/
lemma processPoints_obs_shotid (maximum_depth noise : ℚ)
    (tds : List (String × List ℤ)) (sid : String) (shot : Shot) :
    ∀ (pts : List (String × Point)) (e : ℕ) (rng : Rng) (s k : String)
      (o : Observation),
      (s, k, o) ∈ (processPoints maximum_depth noise tds sid shot pts e rng).1.2.2.2 →
      s = sid := by
  intro pts
  induction pts with
  | nil => intro e rng s k o h; simp [processPoints] at h
  | cons kp rest ih =>
    obtain ⟨k0, pt0⟩ := kp
    intro e rng s k o h
    by_cases h1 : _is_inside_camera (shot.project pt0.coordinates) shot.camera
    · by_cases h2 : _is_in_front pt0 shot
      · by_cases h3 : _check_depth pt0 shot maximum_depth
        · simp only [processPoints, h1, h2, h3, not_true_eq_false, if_false,
            List.mem_cons] at h
          rcases h with h | h
          · exact congrArg Prod.fst h
          · exact ih (e + 1) _ s k o h
        · simp only [processPoints, h1, h2, h3] at h
          exact ih e rng s k o (by simpa using h)
      · simp only [processPoints, h1, h2] at h
        exact ih e rng s k o (by simpa using h)
    · simp only [processPoints, h1] at h
      exact ih e rng s k o (by simpa using h)

/-- The point keys of the emitted observations form a sublist of the
walked point keys. -/
lemma processPoints_obs_keys_sublist (maximum_depth noise : ℚ)
    (tds : List (String × List ℤ)) (sid : String) (shot : Shot) :
    ∀ (pts : List (String × Point)) (e : ℕ) (rng : Rng),
      ((processPoints maximum_depth noise tds sid shot pts e rng).1.2.2.2.map
          (fun t => t.2.1)).Sublist (pts.map Prod.fst) := by
  intro pts
  induction pts with
  | nil => intro e rng; simp [processPoints]
  | cons kp rest ih =>
    obtain ⟨k0, pt0⟩ := kp
    intro e rng
    by_cases h1 : _is_inside_camera (shot.project pt0.coordinates) shot.camera
    · by_cases h2 : _is_in_front pt0 shot
      · by_cases h3 : _check_depth pt0 shot maximum_depth
        · simp only [processPoints, h1, h2, h3, not_true_eq_false, if_false,
            List.map_cons]
          exact List.Sublist.cons₂ k0 (ih (e + 1) _)
        · simp only [processPoints, h1, h2, h3, List.map_cons]
          exact List.Sublist.cons k0 (by simpa using ih e rng)
      · simp only [processPoints, h1, h2, List.map_cons]
        exact List.Sublist.cons k0 (by simpa using ih e rng)
    · simp only [processPoints, h1, List.map_cons]
      exact List.Sublist.cons k0 (by simpa using ih e rng)

/-- The point key of an emitted observation is a walked point key. -/
lemma processPoints_obs_key_mem (maximum_depth noise : ℚ)
    (tds : List (String × List ℤ)) (sid : String) (shot : Shot)
    (pts : List (String × Point)) (e : ℕ) (rng : Rng) (s k : String)
    (o : Observation)
    (h : (s, k, o) ∈ (processPoints maximum_depth noise tds sid shot pts e rng).1.2.2.2) :
    k ∈ pts.map Prod.fst := by
  have hk : k ∈ (processPoints maximum_depth noise tds sid shot pts e rng).1.2.2.2.map
      (fun t => t.2.1) := List.mem_map.mpr ⟨(s, k, o), h, rfl⟩
  exact (processPoints_obs_keys_sublist maximum_depth noise tds sid shot pts e rng).mem hk

/-- C1's core: the inner loop emits an observation for a walked point iff
all three culling predicates pass for it. -/
lemma processPoints_mem_iff (maximum_depth noise : ℚ)
    (tds : List (String × List ℤ)) (sid : String) (shot : Shot) :
    ∀ (pts : List (String × Point)) (e : ℕ) (rng : Rng) (k : String) (pt : Point),
      (pts.map Prod.fst).Nodup → (k, pt) ∈ pts →
      ((∃ o, (sid, k, o) ∈
          (processPoints maximum_depth noise tds sid shot pts e rng).1.2.2.2) ↔
        (_is_inside_camera (shot.project pt.coordinates) shot.camera ∧
         _is_in_front pt shot ∧ _check_depth pt shot maximum_depth)) := by
  intro pts
  induction pts with
  | nil => intro e rng k pt _ hmem; simp at hmem
  | cons kp rest ih =>
    obtain ⟨k0, pt0⟩ := kp
    intro e rng k pt hnd hmem
    have hnd0 : k0 ∉ rest.map Prod.fst := by
      have := hnd
      simp only [List.map_cons, List.nodup_cons] at this
      exact this.1
    have hndr : (rest.map Prod.fst).Nodup := by
      have := hnd
      simp only [List.map_cons, List.nodup_cons] at this
      exact this.2
    rcases List.mem_cons.mp hmem with heq | hmemr
    · injection heq with hk hpt
      subst hk
      subst hpt
      by_cases h1 : _is_inside_camera (shot.project pt.coordinates) shot.camera
      · by_cases h2 : _is_in_front pt shot
        · by_cases h3 : _check_depth pt shot maximum_depth
          · refine iff_of_true ?_ ⟨h1, h2, h3⟩
            have hex : ∃ o l,
                (processPoints maximum_depth noise tds sid shot
                  ((k, pt) :: rest) e rng).1.2.2.2 = (sid, k, o) :: l := by
              simp only [processPoints, h1, h2, h3, not_true_eq_false, if_false]
              exact ⟨_, _, rfl⟩
            obtain ⟨o, l, hl⟩ := hex
            exact ⟨o, hl ▸ List.mem_cons_self _ _⟩
          · refine iff_of_false ?_ (by tauto)
            rintro ⟨o, ho⟩
            simp only [processPoints, h1, h2, h3] at ho
            exact hnd0 (processPoints_obs_key_mem maximum_depth noise tds sid
              shot rest e rng sid k o (by simpa using ho))
        · refine iff_of_false ?_ (by tauto)
          rintro ⟨o, ho⟩
          simp only [processPoints, h1, h2] at ho
          exact hnd0 (processPoints_obs_key_mem maximum_depth noise tds sid
            shot rest e rng sid k o (by simpa using ho))
      · refine iff_of_false ?_ (by tauto)
        rintro ⟨o, ho⟩
        simp only [processPoints, h1] at ho
        exact hnd0 (processPoints_obs_key_mem maximum_depth noise tds sid
          shot rest e rng sid k o (by simpa using ho))
    · have hkne : k ≠ k0 := by
        intro hcontra
        exact hnd0 (hcontra ▸ List.mem_map.mpr ⟨(k, pt), hmemr, rfl⟩)
      by_cases h1 : _is_inside_camera (shot.project pt0.coordinates) shot.camera
      · by_cases h2 : _is_in_front pt0 shot
        · by_cases h3 : _check_depth pt0 shot maximum_depth
          · constructor
            · rintro ⟨o, ho⟩
              simp only [processPoints, h1, h2, h3, not_true_eq_false, if_false,
                List.mem_cons] at ho
              rcases ho with ho | ho
              · exact absurd (congrArg (fun t => t.2.1) ho) hkne
              · exact (ih (e + 1) _ k pt hndr hmemr).mp ⟨o, ho⟩
            · intro hp
              obtain ⟨o, ho⟩ := (ih (e + 1) _ k pt hndr hmemr).mpr hp
              refine ⟨o, ?_⟩
              simp only [processPoints, h1, h2, h3, not_true_eq_false, if_false,
                List.mem_cons]
              exact Or.inr ho
          · rw [show (processPoints maximum_depth noise tds sid shot
                ((k0, pt0) :: rest) e rng)
                = processPoints maximum_depth noise tds sid shot rest e rng by
                simp [processPoints, h1, h2, h3]]
            exact ih e rng k pt hndr hmemr
        · rw [show (processPoints maximum_depth noise tds sid shot
              ((k0, pt0) :: rest) e rng)
              = processPoints maximum_depth noise tds sid shot rest e rng by
              simp [processPoints, h1, h2]]
          exact ih e rng k pt hndr hmemr
      · rw [show (processPoints maximum_depth noise tds sid shot
            ((k0, pt0) :: rest) e rng)
            = processPoints maximum_depth noise tds sid shot rest e rng by
            simp [processPoints, h1]]
        exact ih e rng k pt hndr hmemr

/-- Alignment of the per-shot descriptor array with the emitted
observations: each observation's feature index selects exactly the cached
descriptor of its point. -/
lemma processPoints_desc_aligned (maximum_depth noise : ℚ)
    (tds : List (String × List ℤ)) (sid : String) (shot : Shot) :
    ∀ (pts : List (String × Point)) (e : ℕ) (rng : Rng) (s k : String)
      (o : Observation),
      (s, k, o) ∈ (processPoints maximum_depth noise tds sid shot pts e rng).1.2.2.2 →
      e ≤ o.featureId ∧
        (processPoints maximum_depth noise tds sid shot pts e rng).1.2.1.get?
            (o.featureId - e) = some ((tds.lookup k).getD []) := by
  intro pts
  induction pts with
  | nil => intro e rng s k o h; simp [processPoints] at h
  | cons kp rest ih =>
    obtain ⟨k0, pt0⟩ := kp
    intro e rng s k o h
    by_cases h1 : _is_inside_camera (shot.project pt0.coordinates) shot.camera
    · by_cases h2 : _is_in_front pt0 shot
      · by_cases h3 : _check_depth pt0 shot maximum_depth
        · simp only [processPoints, h1, h2, h3, not_true_eq_false, if_false,
            List.mem_cons] at h ⊢
          rcases h with h | h
          · have hk : k = k0 := congrArg (fun t => t.2.1) h
            have ho : o.featureId = e := by
              have := congrArg (fun t => t.2.2.featureId) h
              simpa using this
            subst hk
            refine ⟨by omega, ?_⟩
            rw [ho, Nat.sub_self]
            rfl
          · obtain ⟨hle, hget⟩ := ih (e + 1) _ s k o h
            refine ⟨by omega, ?_⟩
            have hstep : o.featureId - e = (o.featureId - (e + 1)) + 1 := by omega
            rw [hstep]
            simpa using hget
        · simp only [processPoints, h1, h2, h3] at h ⊢
          exact ih e rng s k o (by simpa using h)
      · simp only [processPoints, h1, h2] at h ⊢
        exact ih e rng s k o (by simpa using h)
    · simp only [processPoints, h1] at h ⊢
      exact ih e rng s k o (by simpa using h)

/-- The shot id of every track entry is one of the walked shot keys. -/
lemma shotLoop_track_ids (maximum_depth noise : ℚ)
    (tds : List (String × List ℤ)) (pts : List (String × Point)) :
    ∀ (shots : List (String × Shot)) (rng : Rng) (s k : String) (o : Observation),
      (s, k, o) ∈ (shotLoop maximum_depth noise tds pts shots rng).1.tracks →
      s ∈ shots.map Prod.fst := by
  intro shots
  induction shots with
  | nil => intro rng s k o h; simp [shotLoop] at h
  | cons hd rest ih =>
    obtain ⟨sid0, shot0⟩ := hd
    intro rng s k o h
    simp only [shotLoop, List.mem_append] at h
    simp only [List.map_cons, List.mem_cons]
    rcases h with h | h
    · exact Or.inl (processPoints_obs_shotid maximum_depth noise tds sid0 shot0
        pts 0 rng s k o h)
    · exact Or.inr (ih _ s k o h)

/-- C1 at the shot-loop level: an observation for the pair (sid, k) is
emitted iff the point passes all three culling predicates for that
shot. -/
lemma shotLoop_mem_iff (maximum_depth noise : ℚ)
    (tds : List (String × List ℤ)) (pts : List (String × Point))
    (hP : (pts.map Prod.fst).Nodup) :
    ∀ (shots : List (String × Shot)) (rng : Rng) (sid : String) (shot : Shot)
      (k : String) (pt : Point),
      (shots.map Prod.fst).Nodup → (sid, shot) ∈ shots → (k, pt) ∈ pts →
      ((∃ o, (sid, k, o) ∈ (shotLoop maximum_depth noise tds pts shots rng).1.tracks) ↔
        (_is_inside_camera (shot.project pt.coordinates) shot.camera ∧
         _is_in_front pt shot ∧ _check_depth pt shot maximum_depth)) := by
  intro shots
  induction shots with
  | nil => intro rng sid shot k pt _ hmem; simp at hmem
  | cons hd rest ih =>
    obtain ⟨sid0, shot0⟩ := hd
    intro rng sid shot k pt hnd hmem hpt
    have hnd0 : sid0 ∉ rest.map Prod.fst := by
      have := hnd
      simp only [List.map_cons, List.nodup_cons] at this
      exact this.1
    have hndr : (rest.map Prod.fst).Nodup := by
      have := hnd
      simp only [List.map_cons, List.nodup_cons] at this
      exact this.2
    rcases List.mem_cons.mp hmem with heq | hmemr
    · injection heq with hsid hshot
      subst hsid
      subst hshot
      constructor
      · rintro ⟨o, ho⟩
        simp only [shotLoop, List.mem_append] at ho
        rcases ho with ho | ho
        · exact (processPoints_mem_iff maximum_depth noise tds sid shot pts 0
            rng k pt hP hpt).mp ⟨o, ho⟩
        · exact absurd (shotLoop_track_ids maximum_depth noise tds pts rest _
            sid k o ho) hnd0
      · intro hp
        obtain ⟨o, ho⟩ := (processPoints_mem_iff maximum_depth noise tds sid
          shot pts 0 rng k pt hP hpt).mpr hp
        refine ⟨o, ?_⟩
        simp only [shotLoop, List.mem_append]
        exact Or.inl ho
    · have hsne : sid ≠ sid0 := by
        intro hcontra
        exact hnd0 (hcontra ▸ List.mem_map.mpr ⟨(sid, shot), hmemr, rfl⟩)
      constructor
      · rintro ⟨o, ho⟩
        simp only [shotLoop, List.mem_append] at ho
        rcases ho with ho | ho
        · exact absurd (processPoints_obs_shotid maximum_depth noise tds sid0
            shot0 pts 0 rng sid k o ho) hsne
        · exact (ih _ sid shot k pt hndr hmemr hpt).mp ⟨o, ho⟩
      · intro hp
        obtain ⟨o, ho⟩ := (ih ((processPoints maximum_depth noise tds sid0
          shot0 pts 0 rng).2) sid shot k pt hndr hmemr hpt).mpr hp
        refine ⟨o, ?_⟩
        simp only [shotLoop, List.mem_append]
        exact Or.inr ho

/-! ### Association-list lookups -/

lemma lookup_cons_self {β : Type _} (k : String) (b : β) (l : List (String × β)) :
    List.lookup k ((k, b) :: l) = some b := by
  simp [List.lookup]

lemma lookup_cons_ne {β : Type _} (k k0 : String) (b : β) (l : List (String × β))
    (h : k ≠ k0) : List.lookup k ((k0, b) :: l) = List.lookup k l := by
  have hb : (k == k0) = false := beq_eq_false_iff_ne.mpr h
  simp [List.lookup, hb]

lemma lookup_mem_of_key_mem {β : Type _} (l : List (String × β)) (k : String)
    (h : k ∈ l.map Prod.fst) : ∃ d, l.lookup k = some d ∧ (k, d) ∈ l := by
  induction l with
  | nil => simp at h
  | cons hd rest ih =>
    obtain ⟨k0, b0⟩ := hd
    by_cases hk : k = k0
    · subst hk
      exact ⟨b0, lookup_cons_self k b0 rest, by simp⟩
    · have hmem : k ∈ rest.map Prod.fst := by
        simp only [List.map_cons, List.mem_cons] at h
        tauto
      obtain ⟨d, hl, hm⟩ := ih hmem
      exact ⟨d, by rw [lookup_cons_ne k k0 b0 rest hk]; exact hl, by simp [hm]⟩

/-- C4 at the shot-loop level: no (shot, point) pair receives two
observations. -/
lemma shotLoop_pairs_nodup (maximum_depth noise : ℚ)
    (tds : List (String × List ℤ)) (pts : List (String × Point))
    (hP : (pts.map Prod.fst).Nodup) :
    ∀ (shots : List (String × Shot)) (rng : Rng), (shots.map Prod.fst).Nodup →
      ((shotLoop maximum_depth noise tds pts shots rng).1.tracks.map
        (fun t => (t.1, t.2.1))).Nodup := by
  intro shots
  induction shots with
  | nil => intro rng _; simp [shotLoop]
  | cons hd rest ih =>
    obtain ⟨sid0, shot0⟩ := hd
    intro rng hnd
    have hnd0 : sid0 ∉ rest.map Prod.fst := by
      have := hnd
      simp only [List.map_cons, List.nodup_cons] at this
      exact this.1
    have hndr : (rest.map Prod.fst).Nodup := by
      have := hnd
      simp only [List.map_cons, List.nodup_cons] at this
      exact this.2
    simp only [shotLoop, List.map_append, List.nodup_append]
    refine ⟨?_, ih _ hndr, ?_⟩
    · apply List.Nodup.of_map Prod.snd
      have hmm :
          (((processPoints maximum_depth noise tds sid0 shot0 pts 0 rng).1.2.2.2.map
            (fun t => (t.1, t.2.1))).map Prod.snd)
          = (processPoints maximum_depth noise tds sid0 shot0 pts 0 rng).1.2.2.2.map
            (fun t => t.2.1) := by
        rw [List.map_map]
        rfl
      rw [hmm]
      exact (processPoints_obs_keys_sublist maximum_depth noise tds sid0 shot0
        pts 0 rng).nodup hP
    · intro a ha hb
      obtain ⟨t, ht, rfl⟩ := List.mem_map.mp ha
      obtain ⟨t', ht', heq⟩ := List.mem_map.mp hb
      obtain ⟨s, k, o⟩ := t
      obtain ⟨s', k', o'⟩ := t'
      have hs : s = sid0 :=
        processPoints_obs_shotid maximum_depth noise tds sid0 shot0 pts 0 rng
          s k o ht
      have hs' : s' ∈ rest.map Prod.fst :=
        shotLoop_track_ids maximum_depth noise tds pts rest _ s' k' o' ht'
      have hss : s' = s := congrArg Prod.fst heq
      rw [hss, hs] at hs'
      exact hnd0 hs'

/-- C3 at the shot-loop level: the descriptor row selected by any emitted
observation is the cached per-point descriptor. -/
lemma shotLoop_desc (maximum_depth noise : ℚ)
    (tds : List (String × List ℤ)) (pts : List (String × Point)) :
    ∀ (shots : List (String × Shot)) (rng : Rng), (shots.map Prod.fst).Nodup →
      ∀ (s k : String) (o : Observation),
        (s, k, o) ∈ (shotLoop maximum_depth noise tds pts shots rng).1.tracks →
        ∃ ds,
          (shotLoop maximum_depth noise tds pts shots rng).1.descriptors.lookup s
            = some ds ∧
          ds.get? o.featureId = some ((tds.lookup k).getD []) := by
  intro shots
  induction shots with
  | nil => intro rng _ s k o h; simp [shotLoop] at h
  | cons hd rest ih =>
    obtain ⟨sid0, shot0⟩ := hd
    intro rng hnd s k o h
    have hnd0 : sid0 ∉ rest.map Prod.fst := by
      have := hnd
      simp only [List.map_cons, List.nodup_cons] at this
      exact this.1
    have hndr : (rest.map Prod.fst).Nodup := by
      have := hnd
      simp only [List.map_cons, List.nodup_cons] at this
      exact this.2
    simp only [shotLoop, List.mem_append] at h
    by_cases hs : s = sid0
    · subst hs
      rcases h with h | h
      · obtain ⟨hle, hget⟩ := processPoints_desc_aligned maximum_depth noise
          tds s shot0 pts 0 rng s k o h
        refine ⟨(processPoints maximum_depth noise tds s shot0 pts 0 rng).1.2.1, ?_, ?_⟩
        · simp only [shotLoop]
          exact lookup_cons_self s _ _
        · simpa using hget
      · exact absurd (shotLoop_track_ids maximum_depth noise tds pts rest _
          s k o h) hnd0
    · rcases h with h | h
      · exact absurd (processPoints_obs_shotid maximum_depth noise tds sid0
          shot0 pts 0 rng s k o h) hs
      · obtain ⟨ds, hl, hg⟩ := ih _ hndr s k o h
        refine ⟨ds, ?_, hg⟩
        simp only [shotLoop]
        rw [lookup_cons_ne s sid0 _ _ hs]
        exact hl

/-- C10 at the shot-loop level: every walked shot key owns a feature, a
descriptor and a color array, all of one length. -/
lemma shotLoop_arrays (maximum_depth noise : ℚ)
    (tds : List (String × List ℤ)) (pts : List (String × Point)) :
    ∀ (shots : List (String × Shot)) (rng : Rng) (sid : String) (shot : Shot),
      (sid, shot) ∈ shots →
      ∃ f d c,
        (shotLoop maximum_depth noise tds pts shots rng).1.features.lookup sid
          = some f ∧
        (shotLoop maximum_depth noise tds pts shots rng).1.descriptors.lookup sid
          = some d ∧
        (shotLoop maximum_depth noise tds pts shots rng).1.colors.lookup sid
          = some c ∧
        f.length = d.length ∧ d.length = c.length := by
  intro shots
  induction shots with
  | nil => intro rng sid shot h; simp at h
  | cons hd rest ih =>
    obtain ⟨sid0, shot0⟩ := hd
    intro rng sid shot h
    by_cases hs : sid = sid0
    · subst hs
      obtain ⟨hl1, hl2, -⟩ := processPoints_lengths maximum_depth noise tds sid
        shot0 pts 0 rng
      refine ⟨_, _, _, ?_, ?_, ?_, hl1, hl2⟩ <;>
        (simp only [shotLoop]; exact lookup_cons_self sid _ _)
    · have hmem : (sid, shot) ∈ rest := by
        rcases List.mem_cons.mp h with heq | hm
        · exact absurd (congrArg Prod.fst heq) hs
        · exact hm
      obtain ⟨f, d, c, h1, h2, h3, h4, h5⟩ := ih _ sid shot hmem
      refine ⟨f, d, c, ?_, ?_, ?_, h4, h5⟩ <;>
        (simp only [shotLoop]; rw [lookup_cons_ne sid sid0 _ _ hs])
      · exact h1
      · exact h2
      · exact h3

/-! ### Descriptor contents -/

lemma nround_zero : nround 0 = 0 := by norm_num [nround]

lemma nround_mem_floor_or_succ (q : ℚ) : nround q = ⌊q⌋ ∨ nround q = ⌊q⌋ + 1 := by
  simp only [nround]
  split_ifs <;> simp

/-- Numpy rounding keeps values of `[0, 255)` inside `[0, 255]`. -/
lemma nround_bounds (q : ℚ) (h0 : 0 ≤ q) (h1 : q < 255) :
    0 ≤ nround q ∧ nround q ≤ 255 := by
  have hf0 : (0 : ℤ) ≤ ⌊q⌋ := Int.floor_nonneg.mpr h0
  have hf1 : ⌊q⌋ < 255 := by
    rw [Int.floor_lt]
    exact_mod_cast h1
  rcases nround_mem_floor_or_succ q with h | h <;> rw [h] <;> omega

lemma countP_set_le {α : Type _} (p : α → Bool) :
    ∀ (l : List α) (i : ℕ) (v : α),
      (l.set i v).countP p ≤ l.countP p + 1 := by
  intro l
  induction l with
  | nil => intro i v; simp
  | cons a rest ih =>
    intro i v
    cases i with
    | zero =>
      simp only [List.set, List.countP_cons]
      split_ifs <;> omega
    | succ j =>
      simp only [List.set, List.countP_cons]
      have := ih j v
      split_ifs <;> omega

lemma genDescriptorLoop_countP_le (p : ℚ → Bool) :
    ∀ (n : ℕ) (d : List ℚ) (rng : Rng),
      ((genDescriptorLoop n d rng).1).countP p ≤ d.countP p + n := by
  intro n
  induction n with
  | zero => intro d rng; simp [genDescriptorLoop]
  | succ m ih =>
    intro d rng
    simp only [genDescriptorLoop]
    calc ((genDescriptorLoop m
            (d.set (rng.randint 0 desc_size).1 ((rng.randint 0 desc_size).2.random.1 * 255))
            (rng.randint 0 desc_size).2.random.2).1).countP p
        ≤ (d.set (rng.randint 0 desc_size).1
            ((rng.randint 0 desc_size).2.random.1 * 255)).countP p + m := ih _ _
      _ ≤ (d.countP p + 1) + m := by
          have := countP_set_le p d (rng.randint 0 desc_size).1
            ((rng.randint 0 desc_size).2.random.1 * 255)
          omega
      _ = d.countP p + (m + 1) := by omega

/-- A synthesized descriptor has at most `non_zeroes` nonzero entries. -/
lemma genDescriptor_count_le (rng : Rng) :
    ((genDescriptor rng).1).countP (fun x => decide (x ≠ 0)) ≤ non_zeroes := by
  unfold genDescriptor
  simp only [List.countP_map]
  have hmono :
      ((genDescriptorLoop non_zeroes (List.replicate desc_size 0) rng).1).countP
          ((fun x => decide (x ≠ 0)) ∘ nround)
        ≤ ((genDescriptorLoop non_zeroes (List.replicate desc_size 0) rng).1).countP
          (fun q => decide (q ≠ 0)) := by
    apply List.countP_mono_left
    intro q _ hq
    simp only [Function.comp_apply, decide_eq_true_eq] at hq ⊢
    intro hq0
    exact hq (by rw [hq0]; exact nround_zero)
  have hle := genDescriptorLoop_countP_le (fun q => decide (q ≠ 0)) non_zeroes
    (List.replicate desc_size 0) rng
  have hrep : (List.replicate desc_size (0:ℚ)).countP (fun q => decide (q ≠ 0)) = 0 := by
    simp [List.countP_replicate]
  omega

lemma genDescriptorLoop_mem_bounds :
    ∀ (n : ℕ) (d : List ℚ) (rng : Rng),
      (∀ x ∈ d, 0 ≤ x ∧ x < 255) →
      ∀ x ∈ (genDescriptorLoop n d rng).1, 0 ≤ x ∧ x < 255 := by
  intro n
  induction n with
  | zero => intro d rng hd x hx; exact hd x hx
  | succ m ih =>
    intro d rng hd x hx
    simp only [genDescriptorLoop] at hx
    refine ih _ _ ?_ x hx
    intro y hy
    rcases List.mem_or_eq_of_mem_set hy with hy | hy
    · exact hd y hy
    · subst hy
      simp only [Rng.random]
      constructor
      · exact mul_nonneg (Int.fract_nonneg _) (by norm_num)
      · calc Int.fract ((rng.randint 0 desc_size).2.rats
              (rng.randint 0 desc_size).2.k) * 255 < 1 * 255 :=
            mul_lt_mul_of_pos_right (Int.fract_lt_one _) (by norm_num)
          _ = 255 := by norm_num

/-- Every entry of a synthesized descriptor lies in `[0, 255]`. -/
lemma genDescriptor_bounds (rng : Rng) :
    ∀ v ∈ (genDescriptor rng).1, 0 ≤ v ∧ v ≤ 255 := by
  intro v hv
  unfold genDescriptor at hv
  simp only [List.mem_map] at hv
  obtain ⟨q, hq, rfl⟩ := hv
  have hqb := genDescriptorLoop_mem_bounds non_zeroes (List.replicate desc_size 0)
    rng (by intro x hx; rw [List.eq_of_mem_replicate hx]; norm_num) q hq
  exact nround_bounds q hqb.1 hqb.2

/-- The key column of the descriptor cache equals the point key column. -/
lemma genTrackDescriptors_keys :
    ∀ (pts : List (String × Point)) (rng : Rng),
      ((genTrackDescriptors pts rng).1).map Prod.fst = pts.map Prod.fst := by
  intro pts
  induction pts with
  | nil => intro rng; rfl
  | cons hd rest ih =>
    obtain ⟨k0, pt0⟩ := hd
    intro rng
    simp only [genTrackDescriptors, List.map_cons, List.cons.injEq]
    exact ⟨trivial, ih _⟩

/-- Every cached descriptor is a `genDescriptor` output: the nonzero count
is at most `non_zeroes` and every entry lies in `[0, 255]`. -/
lemma genTrackDescriptors_values :
    ∀ (pts : List (String × Point)) (rng : Rng) (k : String) (d : List ℤ),
      (k, d) ∈ (genTrackDescriptors pts rng).1 →
      d.countP (fun x => decide (x ≠ 0)) ≤ non_zeroes ∧
        ∀ v ∈ d, 0 ≤ v ∧ v ≤ 255 := by
  intro pts
  induction pts with
  | nil => intro rng k d h; simp [genTrackDescriptors] at h
  | cons hd rest ih =>
    obtain ⟨k0, pt0⟩ := hd
    intro rng k d h
    simp only [genTrackDescriptors, List.mem_cons] at h
    rcases h with h | h
    · have hd' : d = (genDescriptor rng).1 := congrArg Prod.snd h
      rw [hd']
      exact ⟨genDescriptor_count_le rng, genDescriptor_bounds rng⟩
    · exact ih _ k d h

/-- The point key of every track entry is a walked point key. -/
lemma shotLoop_obs_key_mem (maximum_depth noise : ℚ)
    (tds : List (String × List ℤ)) (pts : List (String × Point)) :
    ∀ (shots : List (String × Shot)) (rng : Rng) (s k : String) (o : Observation),
      (s, k, o) ∈ (shotLoop maximum_depth noise tds pts shots rng).1.tracks →
      k ∈ pts.map Prod.fst := by
  intro shots
  induction shots with
  | nil => intro rng s k o h; simp [shotLoop] at h
  | cons hd rest ih =>
    obtain ⟨sid0, shot0⟩ := hd
    intro rng s k o h
    simp only [shotLoop, List.mem_append] at h
    rcases h with h | h
    · exact processPoints_obs_key_mem maximum_depth noise tds sid0 shot0 pts 0
        rng s k o h
    · exact ih _ s k o h

/-! ## The claims about `generate_track_data` -/

/-- C1: `generate_track_data` emits an observation for a (shot, point)
pair iff all three culling predicates pass: the projection is inside the
camera's normalized field-of-view bounds, the dot product of (world point
- camera origin) with the third rotation row is strictly positive, and the
camera-space z-coordinate is strictly below `maximum_depth`. -/
theorem generate_track_data_emission_iff (reconstruction : Reconstruction)
    (maximum_depth noise : ℚ) (rng : Rng)
    (hS : (reconstruction.shots.map Prod.fst).Nodup)
    (hP : (reconstruction.points.map Prod.fst).Nodup)
    (sid : String) (shot : Shot) (k : String) (pt : Point)
    (hsin : (sid, shot) ∈ reconstruction.shots)
    (hpin : (k, pt) ∈ reconstruction.points) :
    (∃ o, (sid, k, o) ∈
        (generate_track_data reconstruction maximum_depth noise rng).1.tracks) ↔
      (_is_inside_camera (shot.project pt.coordinates) shot.camera ∧
       _is_in_front pt shot ∧ _check_depth pt shot maximum_depth) :=
  shotLoop_mem_iff maximum_depth noise
    (genTrackDescriptors reconstruction.points rng).1 reconstruction.points hP
    reconstruction.shots (genTrackDescriptors reconstruction.points rng).2
    sid shot k pt hS hsin hpin

/-- C4: in one call to `generate_track_data`, at most one observation is
emitted per (shot id, point id) pair. -/
theorem generate_track_data_pairs_nodup (reconstruction : Reconstruction)
    (maximum_depth noise : ℚ) (rng : Rng)
    (hS : (reconstruction.shots.map Prod.fst).Nodup)
    (hP : (reconstruction.points.map Prod.fst).Nodup) :
    ((generate_track_data reconstruction maximum_depth noise rng).1.tracks.map
      (fun t => (t.1, t.2.1))).Nodup :=
  shotLoop_pairs_nodup maximum_depth noise
    (genTrackDescriptors reconstruction.points rng).1 reconstruction.points hP
    reconstruction.shots (genTrackDescriptors reconstruction.points rng).2 hS

/-- C3: two observations of the same point id, possibly from different
shots, carry identical attached descriptors; the descriptor is a function
of the point identity only. -/
theorem generate_track_data_desc_same_point (reconstruction : Reconstruction)
    (maximum_depth noise : ℚ) (rng : Rng)
    (hS : (reconstruction.shots.map Prod.fst).Nodup)
    (s1 s2 k : String) (o1 o2 : Observation)
    (h1 : (s1, k, o1) ∈
      (generate_track_data reconstruction maximum_depth noise rng).1.tracks)
    (h2 : (s2, k, o2) ∈
      (generate_track_data reconstruction maximum_depth noise rng).1.tracks) :
    ∃ d,
      obsDescriptor (generate_track_data reconstruction maximum_depth noise rng).1
          s1 o1 = some d ∧
      obsDescriptor (generate_track_data reconstruction maximum_depth noise rng).1
          s2 o2 = some d := by
  obtain ⟨ds1, hl1, hg1⟩ := shotLoop_desc maximum_depth noise
    (genTrackDescriptors reconstruction.points rng).1 reconstruction.points
    reconstruction.shots (genTrackDescriptors reconstruction.points rng).2 hS
    s1 k o1 h1
  obtain ⟨ds2, hl2, hg2⟩ := shotLoop_desc maximum_depth noise
    (genTrackDescriptors reconstruction.points rng).1 reconstruction.points
    reconstruction.shots (genTrackDescriptors reconstruction.points rng).2 hS
    s2 k o2 h2
  refine ⟨(List.lookup k (genTrackDescriptors reconstruction.points rng).1).getD [],
    ?_, ?_⟩
  · show ((generate_track_data reconstruction maximum_depth noise
      rng).1.descriptors.lookup s1).bind (fun l => l.get? o1.featureId) = _
    rw [show (generate_track_data reconstruction maximum_depth noise
      rng).1.descriptors.lookup s1 = some ds1 from hl1]
    simpa using hg1
  · show ((generate_track_data reconstruction maximum_depth noise
      rng).1.descriptors.lookup s2).bind (fun l => l.get? o2.featureId) = _
    rw [show (generate_track_data reconstruction maximum_depth noise
      rng).1.descriptors.lookup s2 = some ds2 from hl2]
    simpa using hg2

/-- C2 (amended): every emitted observation's attached descriptor has at
most 5 nonzero entries (index collisions among the five draws, or draws
rounding to zero, can leave fewer), and every entry lies in [0, 255]. -/
theorem generate_track_data_descriptor_profile (reconstruction : Reconstruction)
    (maximum_depth noise : ℚ) (rng : Rng)
    (hS : (reconstruction.shots.map Prod.fst).Nodup)
    (s k : String) (o : Observation)
    (h : (s, k, o) ∈
      (generate_track_data reconstruction maximum_depth noise rng).1.tracks) :
    ∃ d,
      obsDescriptor (generate_track_data reconstruction maximum_depth noise rng).1
          s o = some d ∧
      d.countP (fun x => decide (x ≠ 0)) ≤ 5 ∧ ∀ v ∈ d, 0 ≤ v ∧ v ≤ 255 := by
  obtain ⟨ds, hl, hg⟩ := shotLoop_desc maximum_depth noise
    (genTrackDescriptors reconstruction.points rng).1 reconstruction.points
    reconstruction.shots (genTrackDescriptors reconstruction.points rng).2 hS
    s k o h
  have hkmem : k ∈ reconstruction.points.map Prod.fst :=
    shotLoop_obs_key_mem maximum_depth noise
      (genTrackDescriptors reconstruction.points rng).1 reconstruction.points
      reconstruction.shots (genTrackDescriptors reconstruction.points rng).2
      s k o h
  have hkmem' : k ∈ ((genTrackDescriptors reconstruction.points rng).1).map
      Prod.fst := by
    rw [genTrackDescriptors_keys]
    exact hkmem
  obtain ⟨d, hlk, hdm⟩ :=
    lookup_mem_of_key_mem ((genTrackDescriptors reconstruction.points rng).1) k
      hkmem'
  obtain ⟨hcount, hbounds⟩ :=
    genTrackDescriptors_values reconstruction.points rng k d hdm
  refine ⟨d, ?_, by simpa [non_zeroes] using hcount, hbounds⟩
  show ((generate_track_data reconstruction maximum_depth noise
    rng).1.descriptors.lookup s).bind (fun l => l.get? o.featureId) = _
  rw [show (generate_track_data reconstruction maximum_depth noise
    rng).1.descriptors.lookup s = some ds from hl]
  have : ds.get? o.featureId = some d := by
    rw [hg, hlk]
    rfl
  simpa using this

/-- C10: every shot of the reconstruction, including shots observing
nothing, owns an entry in the features, descriptors and colors mappings,
and the three arrays have equal lengths. -/
theorem generate_track_data_per_shot_arrays (reconstruction : Reconstruction)
    (maximum_depth noise : ℚ) (rng : Rng) (sid : String) (shot : Shot)
    (h : (sid, shot) ∈ reconstruction.shots) :
    ∃ f d c,
      (generate_track_data reconstruction maximum_depth noise
        rng).1.features.lookup sid = some f ∧
      (generate_track_data reconstruction maximum_depth noise
        rng).1.descriptors.lookup sid = some d ∧
      (generate_track_data reconstruction maximum_depth noise
        rng).1.colors.lookup sid = some c ∧
      f.length = d.length ∧ d.length = c.length :=
  shotLoop_arrays maximum_depth noise
    (genTrackDescriptors reconstruction.points rng).1 reconstruction.points
    reconstruction.shots (genTrackDescriptors reconstruction.points rng).2
    sid shot h

/-! ### Evaluation of the fixtures -/

lemma set_replicate_zero : ∀ (n i : ℕ), (List.replicate n (0:ℚ)).set i 0
    = List.replicate n 0 := by
  intro n
  induction n with
  | zero => intro i; rfl
  | succ m ih =>
    intro i
    cases i with
    | zero => rfl
    | succ j => simpa [List.replicate] using ih j

lemma genDescriptorLoop_zero : ∀ (n k : ℕ),
    genDescriptorLoop n (List.replicate desc_size 0) ⟨fun _ => 0, fun _ => 0, k⟩
      = (List.replicate desc_size 0, ⟨fun _ => 0, fun _ => 0, k + 2 * n⟩) := by
  intro n
  induction n with
  | zero => intro k; simp [genDescriptorLoop]
  | succ m ih =>
    intro k
    have hstep :
        genDescriptorLoop (m + 1) (List.replicate desc_size 0)
            ⟨fun _ => 0, fun _ => 0, k⟩
          = genDescriptorLoop m (List.replicate desc_size 0)
            ⟨fun _ => 0, fun _ => 0, k + 2⟩ := by
      simp only [genDescriptorLoop, Rng.randint, Rng.random, Rng.bump]
      norm_num [set_replicate_zero]
    rw [hstep, ih (k + 2)]
    have : k + 2 + 2 * m = k + 2 * (m + 1) := by omega
    rw [this]

lemma genDescriptor_zero (k : ℕ) :
    genDescriptor ⟨fun _ => 0, fun _ => 0, k⟩
      = (List.replicate desc_size 0, ⟨fun _ => 0, fun _ => 0, k + 10⟩) := by
  unfold genDescriptor
  rw [genDescriptorLoop_zero non_zeroes k]
  simp [List.map_replicate, nround_zero, non_zeroes]

lemma genTrackDescriptors_ex :
    genTrackDescriptors recEx2.points rngZero
      = ([("0", List.replicate desc_size 0)], ⟨fun _ => 0, fun _ => 0, 10⟩) := by
  show genTrackDescriptors [("0", ptEx)] ⟨fun _ => 0, fun _ => 0, 0⟩ = _
  simp only [genTrackDescriptors, genDescriptor_zero]

lemma processPoints_ex (sid : String) (k : ℕ) :
    processPoints 10 0 [("0", List.replicate desc_size 0)] sid shotEx
      [("0", ptEx)] 0 ⟨fun _ => 0, fun _ => 0, k⟩
      = (([(0, 0, default_scale)], [List.replicate desc_size 0], [ptEx.color],
          [(sid, "0", obsEx)]), ⟨fun _ => 0, fun _ => 0, k + 2⟩) := by
  have h1 : _is_inside_camera (shotEx.project ptEx.coordinates) shotEx.camera := by
    norm_num [_is_inside_camera, shotEx, camEx, ptEx]
  have h2 : _is_in_front ptEx shotEx := by
    norm_num [_is_in_front, shotEx, poseId, ptEx, Vec3.sub, Vec3.dot]
  have h3 : _check_depth ptEx shotEx 10 := by
    norm_num [_check_depth, shotEx, poseId, ptEx, Pose.transform, Vec3.sub,
      Vec3.dot]
  simp only [processPoints, h1, h2, h3, not_true_eq_false, if_false]
  norm_num [processPoints, perturb_points, perturbPoint, perturbCoord,
    Rng.normal, Rng.bump, max_zero_eps, obsEx, shotEx, camEx, ptEx,
    List.lookup]

lemma generate_track_data_ex :
    (generate_track_data recEx2 10 0 rngZero).1
      = ⟨[("s", [(0, 0, default_scale)]), ("t", [(0, 0, default_scale)])],
         [("s", [List.replicate desc_size 0]),
          ("t", [List.replicate desc_size 0])],
         [("s", [ptEx.color]), ("t", [ptEx.color])],
         [("s", "0", obsEx), ("t", "0", obsEx)]⟩ := by
  show (shotLoop 10 0 (genTrackDescriptors recEx2.points rngZero).1
    recEx2.points recEx2.shots (genTrackDescriptors recEx2.points rngZero).2).1
    = _
  have h1 : (genTrackDescriptors recEx2.points rngZero).1
      = [("0", List.replicate desc_size 0)] := by rw [genTrackDescriptors_ex]
  have h2 : (genTrackDescriptors recEx2.points rngZero).2
      = ⟨fun _ => 0, fun _ => 0, 10⟩ := by rw [genTrackDescriptors_ex]
  rw [h1, h2]
  show (shotLoop 10 0 [("0", List.replicate desc_size 0)] recEx2.points
    [("s", shotEx), ("t", shotEx)] ⟨fun _ => 0, fun _ => 0, 10⟩).1 = _
  have hpts : recEx2.points = [("0", ptEx)] := rfl
  rw [hpts]
  simp only [shotLoop, processPoints_ex]
  rfl

/-- C2 (counterexample): a run in which observations are emitted whose
descriptors have 0 nonzero entries, not exactly 5 (all five draws land on
index 0 with value 0). -/
theorem generate_track_data_descriptor_count_counterexample :
    ((generate_track_data recEx2 10 0 rngZero).1.tracks.map (fun t =>
      ((obsDescriptor (generate_track_data recEx2 10 0 rngZero).1 t.1
        t.2.2).getD []).countP (fun x => decide (x ≠ 0)))) = [0, 0] := by
  rw [generate_track_data_ex]
  simp [obsDescriptor, obsEx, List.lookup, List.countP_replicate]

/-- C2 (witness): the amended statement at the fixture's emitted
observation. -/
theorem generate_track_data_descriptor_profile_witness :
    ∃ d,
      obsDescriptor (generate_track_data recEx2 10 0 rngZero).1 "s" obsEx
        = some d ∧
      d.countP (fun x => decide (x ≠ 0)) ≤ 5 ∧ ∀ v ∈ d, 0 ≤ v ∧ v ≤ 255 :=
  generate_track_data_descriptor_profile recEx2 10 0 rngZero
    (by simp [recEx2]) "s" "0" obsEx
    (by rw [generate_track_data_ex]; simp)

/-- C1 (witness): the emission equivalence at the fixture. -/
theorem generate_track_data_emission_iff_witness :
    (∃ o, ("s", "0", o) ∈ (generate_track_data recEx2 10 0 rngZero).1.tracks) ↔
      (_is_inside_camera (shotEx.project ptEx.coordinates) shotEx.camera ∧
       _is_in_front ptEx shotEx ∧ _check_depth ptEx shotEx 10) :=
  generate_track_data_emission_iff recEx2 10 0 rngZero
    (by simp [recEx2]) (by simp [recEx2]) "s" shotEx "0" ptEx
    (by simp [recEx2]) (by simp [recEx2])

/-- C3 (witness): the two shots of the fixture see the same point and get
one identical descriptor. -/
theorem generate_track_data_desc_same_point_witness :
    ∃ d,
      obsDescriptor (generate_track_data recEx2 10 0 rngZero).1 "s" obsEx
        = some d ∧
      obsDescriptor (generate_track_data recEx2 10 0 rngZero).1 "t" obsEx
        = some d :=
  generate_track_data_desc_same_point recEx2 10 0 rngZero
    (by simp [recEx2]) "s" "t" "0" obsEx obsEx
    (by rw [generate_track_data_ex]; simp)
    (by rw [generate_track_data_ex]; simp)

/-- C4 (witness): no duplicated (shot, point) pair on the fixture. -/
theorem generate_track_data_pairs_nodup_witness :
    ((generate_track_data recEx2 10 0 rngZero).1.tracks.map
      (fun t => (t.1, t.2.1))).Nodup :=
  generate_track_data_pairs_nodup recEx2 10 0 rngZero
    (by simp [recEx2]) (by simp [recEx2])

/-- C10 (witness): shot "t" of the fixture owns aligned per-shot arrays. -/
theorem generate_track_data_per_shot_arrays_witness :
    ∃ f d c,
      (generate_track_data recEx2 10 0 rngZero).1.features.lookup "t" = some f ∧
      (generate_track_data recEx2 10 0 rngZero).1.descriptors.lookup "t"
        = some d ∧
      (generate_track_data recEx2 10 0 rngZero).1.colors.lookup "t" = some c ∧
      f.length = d.length ∧ d.length = c.length :=
  generate_track_data_per_shot_arrays recEx2 10 0 rngZero "t" shotEx
    (by simp [recEx2])

end SyntheticGenerator
